import Mathlib

/-!
# Verification of the Máquina Sencilla assembler

A shallow embedding of `msassembler.py`: a two-pass assembler for a toy
two-operand machine.  Source lines are modelled as `List Char`, exactly as
Python's file iteration yields them (each line keeps its trailing `'\n'`,
except possibly the last line of the file; iteration never yields an empty
string).  Python `str` operations (`find`, slicing, `lstrip`, `strip`,
`lower`, `upper`, `replace`, `split`, `isalnum`, `isnumeric`, `int`, `bin`,
`zfill`) are modelled for the ASCII range, which is the range the assembler's
grammar uses.
-/

set_option maxRecDepth 10000

namespace MSAssembler

/-- A Python string, modelled as a list of characters. -/
abbrev Str := List Char

/-- Python whitespace characters (the set stripped by `str.strip`). -/
def isPySpace (c : Char) : Bool :=
  c = ' ' || c = '\t' || c = '\n' || c = '\r' || c = '\x0b' || c = '\x0c'

/-- Python `s.find(c)`: index of the first occurrence, `none` for Python's `-1`. -/
def pyFind (s : Str) (c : Char) : Option Nat :=
  s.findIdx? (· = c)

/-- Python `s.lstrip()`. -/
def pyLstrip (s : Str) : Str := s.dropWhile isPySpace

/-- Python `s.strip()`. -/
def pyStrip (s : Str) : Str :=
  ((s.dropWhile isPySpace).reverse.dropWhile isPySpace).reverse

/-- Python `s.lower()` (ASCII range). -/
def pyLower (s : Str) : Str := s.map Char.toLower

/-- Python `s.upper()` (ASCII range). -/
def pyUpper (s : Str) : Str := s.map Char.toUpper

/-- Python `s.isalnum()` (ASCII range): nonempty and every char alphanumeric. -/
def pyIsAlnum (s : Str) : Bool := !s.isEmpty && s.all Char.isAlphanum

/-- Python `s.isnumeric()` (ASCII range): nonempty and every char a decimal digit. -/
def pyIsNumeric (s : Str) : Bool := !s.isEmpty && s.all Char.isDigit

/-- Decimal digits to the number they denote. -/
def digitsToNat (s : Str) : Nat :=
  s.foldl (fun acc c => 10 * acc + (c.toNat - 48)) 0

/-- Python `int(s)`: optional surrounding whitespace, optional sign, decimal
digits; `none` models the `ValueError` exception. -/
def pyInt (s : Str) : Option Int :=
  match pyStrip s with
  | '-' :: ds => if pyIsNumeric ds then some (-(digitsToNat ds : Int)) else none
  | '+' :: ds => if pyIsNumeric ds then some ((digitsToNat ds : Int)) else none
  | ds => if pyIsNumeric ds then some ((digitsToNat ds : Int)) else none

/-- Binary digits, most significant first; structural recursion on a fuel
argument (any fuel above the number suffices, see `binNatAux_congr`). -/
def binNatAux : Nat → Nat → Str
  | 0, _ => []
  | fuel + 1, n =>
    if n < 2 then (if n = 1 then ['1'] else ['0'])
    else binNatAux fuel (n / 2) ++ [if n % 2 = 1 then '1' else '0']

/-- Binary digits of a natural number, most significant first (`bin(n)` without
the `0b` prefix, for `n ≥ 0`). -/
def binNat (n : Nat) : Str := binNatAux (n + 1) n

/-- Python `bin(n)` for an `int`: `0b`-prefixed, `-0b`-prefixed when negative. -/
def pyBin (n : Int) : Str :=
  if n < 0 then '-' :: '0' :: 'b' :: binNat n.natAbs
  else '0' :: 'b' :: binNat n.toNat

/-- Python `s.zfill(w)`: left-pad with `'0'` to width `w`, keeping a leading
sign character in place. -/
def zfill (s : Str) (w : Nat) : Str :=
  if w ≤ s.length then s
  else
    match s with
    | [] => List.replicate w '0'
    | c :: rest =>
        if c = '+' || c = '-' then c :: (List.replicate (w - s.length) '0' ++ rest)
        else List.replicate (w - s.length) '0' ++ s

/-- Python `s.replace(w, r)` restricted to the two-spaces-to-one case used by
the tokenizer: scan left to right, non-overlapping (on a match both spaces
are consumed and one is emitted). -/
def replaceDoubleSpace : Str → Str
  | [] => []
  | [c] => [c]
  | c0 :: c1 :: rest =>
    if c0 = ' ' ∧ c1 = ' ' then ' ' :: replaceDoubleSpace rest
    else c0 :: replaceDoubleSpace (c1 :: rest)

/-- Python `s.split(",")`: split at every comma, keeping empty pieces
(so the empty string splits to `[""]`). -/
def splitComma : Str → List Str
  | [] => [[]]
  | c :: rest =>
      if c = ',' then [] :: splitComma rest
      else
        match splitComma rest with
        | t :: ts => (c :: t) :: ts
        | [] => [[c]]

/-- First-match association-list lookup (a Python `dict` read). -/
def alistLookup {β : Type} (m : List (Str × β)) (k : Str) : Option β :=
  match m with
  | [] => none
  | (k2, v) :: rest => if k2 = k then some v else alistLookup rest k

/-! ## The assembler's fixed tables (`OPERATIONS`, `OPERAND_NUMBER`, `_opcodes`) -/

def OPERATIONS : List Str :=
  ["ADD".toList, "MOV".toList, "CMP".toList, "BEQ".toList, "IN".toList, "OUT".toList]

def OPERAND_NUMBER : List (Str × Nat) :=
  [("ADD".toList, 2), ("MOV".toList, 2), ("CMP".toList, 2),
   ("BEQ".toList, 1), ("IN".toList, 2), ("OUT".toList, 2)]

def opcodes : List (Str × Str) :=
  [("ADD".toList, "00".toList), ("CMP".toList, "01".toList),
   ("MOV".toList, "10".toList), ("BEQ".toList, "11".toList),
   ("IN".toList, "1110".toList), ("OUT".toList, "1111".toList)]

/-- Errors: the three `_abort` conditions, plus the Python exceptions the
program can die from (distinct from a reported abort). -/
inductive AsmError where
  | duplicateLabel (label : Str)
  | unknownOperation (line : Nat)
  | missingOperand (op : Str) (line : Nat)
  | pyIndexError
  | pyException
  deriving DecidableEq

/-- The assembler's mutable symbol state: `_labels`, `_variables`,
`_constants` (insertion-ordered dicts) and `_data_pointer`. -/
structure AsmState where
  labels : List (Str × Nat)
  vars : List (Str × Nat)
  constants : List (Str × Nat)
  dataPointer : Nat
  deriving DecidableEq

/-- `Assembler.__init__`'s symbol state: empty maps except the labels already
collected, data pointer at `_data_start = 100`. -/
def initState (labels : List (Str × Nat)) : AsmState :=
  { labels := labels, vars := [], constants := [], dataPointer := 100 }

/-- `Assembler._hasLabel`: the line contains the `':'` delimiter. -/
def hasLabel (line : Str) : Bool := line.contains ':'

/-- `Assembler._getLabel`: `line[0:line.find(':')].lstrip().lower()`
(Python's `find` returns `-1` when absent, and `line[0:-1]` drops the last
character). -/
def getLabel (line : Str) : Str :=
  match pyFind line ':' with
  | some sep => pyLower (pyLstrip (line.take sep))
  | none => pyLower (pyLstrip (line.take (line.length - 1)))

/-- `Assembler._defineLabel`: abort when the label is already present,
otherwise record it. -/
def defineLabel (label : Str) (address : Nat) (m : List (Str × Nat)) :
    Except AsmError (List (Str × Nat)) :=
  match alistLookup m label with
  | some _ => .error (.duplicateLabel label)
  | none => .ok (m ++ [(label, address)])

/-- `Assembler._getIdLocation`: resolve an operand token, in order: known
label, numeric constant, explicit `@` address (clamped by
`min((2**7)-1, int(address))`), fallback variable.  Constants and variables
allocate from the shared data pointer on first use.  `none` models the
`ValueError` from `int` on a malformed `@` token. -/
def getIdLocation (identifier : Str) (s : AsmState) : Option (Int × AsmState) :=
  match alistLookup s.labels identifier with
  | some a => some ((a : Int), s)
  | none =>
    if pyIsNumeric identifier then
      match alistLookup s.constants identifier with
      | some a => some ((a : Int), s)
      | none =>
          some ((s.dataPointer : Int),
            { s with constants := s.constants ++ [(identifier, s.dataPointer)],
                     dataPointer := s.dataPointer + 1 })
    else if identifier.contains '@' then
      match pyInt (identifier.filter (fun c => !(c = '@'))) with
      | some n => some (min ((2 ^ 7 : Nat) - 1 : Int) n, s)
      | none => none
    else
      match alistLookup s.vars identifier with
      | some a => some ((a : Int), s)
      | none =>
          some ((s.dataPointer : Int),
            { s with vars := s.vars ++ [(identifier, s.dataPointer)],
                     dataPointer := s.dataPointer + 1 })

/-! ## Pass 1: `Assembler._parseLabels` -/

/-- The scan pass's counting condition `line[0] not in ['#', '/']`.  File
iteration never yields an empty line, so the `[]` case is unreachable on real
input; it is kept total (counting) for definiteness. -/
def notCommentStart (line : Str) : Bool :=
  match line with
  | [] => true
  | c :: _ => !(c = '#' || c = '/')

/-- The loop body of `_parseLabels`: record the label of every line containing
`':'` at the current address, advance the address for every line whose first
character is not `'#'` or `'/'`. -/
def parseLabelsAux : List Str → Nat → List (Str × Nat) →
    Except AsmError (List (Str × Nat))
  | [], _, m => .ok m
  | line :: rest, addr, m =>
    match (if hasLabel line then defineLabel (getLabel line) addr m else .ok m) with
    | .error e => .error e
    | .ok m1 =>
        parseLabelsAux rest (if notCommentStart line then addr + 1 else addr) m1

/-- `Assembler._parseLabels`: scan from `_src_start = 0` with an empty label
table. -/
def parseLabels (lines : List Str) : Except AsmError (List (Str × Nat)) :=
  parseLabelsAux lines 0 []

/-! ## Pass 2a: `Assembler._parseInstructions` -/

/-- Text before the first `'#'` (the comment-stripping step
`line[:line.find('#')]`, a no-op when there is no `'#'`). -/
def stripComment (line : Str) : Str :=
  match pyFind line '#' with
  | some i => line.take i
  | none => line

/-- Text after the first `':'` (`line[line.find(':')+1:]`); the parser only
applies it to lines for which `hasLabel` holds. -/
def afterLabel (line : Str) : Str :=
  line.drop ((pyFind line ':').getD 0 + 1)

/-- The whitespace clean-up and tokenization of `_parseInstructions`:
collapse one double space per scan, delete tabs, strip, turn spaces into
commas, split on commas, keep tokens that are alphanumeric or contain `'@'`. -/
def tokenize (line : Str) : List Str :=
  let l1 := replaceDoubleSpace line
  let l2 := l1.filter (fun c => !(c = '\t'))
  let l3 := pyStrip l2
  let l4 := l3.map (fun c => if c = ' ' then ',' else c)
  (splitComma l4).filter (fun t => pyIsAlnum t || t.contains '@')

/-- The mnemonic/operand checks of `_parseInstructions` on the token list of
one line (1-based number `n`): `tokens[0]` raises `IndexError` on an empty
list, an unrecognized upper-cased mnemonic or a short token list is an
`_abort`, and otherwise the collected instruction is
`[operation, operand1]` or `[operation, operand1, operand0]`. -/
def parseTokens (tokens : List Str) (n : Nat) : Except AsmError (List Str) :=
  match tokens with
  | [] => .error .pyIndexError
  | t0 :: ts =>
    let operation := pyUpper t0
    if operation ∈ OPERATIONS then
      match alistLookup OPERAND_NUMBER operation with
      | none => .error .pyException
      | some k =>
        if (t0 :: ts).length < k + 1 then .error (.missingOperand operation n)
        else
          match ts with
          | t1 :: t2 :: _ => .ok [operation, t1, t2]
          | t1 :: [] => .ok [operation, t1]
          | [] => .error .pyIndexError
    else .error (.unknownOperation n)

/-- One iteration of the `_parseInstructions` loop on source line `line`
(1-based number `n`): `.ok none` is a `continue` (comment-only or label-only
line), `.ok (some instr)` collects an instruction via `parseTokens`.  The
label-strip `continue` check only runs on lines that contain `':'`, exactly
as in the source. -/
def parseLine (line : Str) (n : Nat) : Except AsmError (Option (List Str)) :=
  let cs := stripComment line
  if cs.length = 0 then .ok none
  else if hasLabel cs then
    (if (afterLabel cs).length = 0 then .ok none
     else (parseTokens (tokenize (afterLabel cs)) n).map some)
  else (parseTokens (tokenize cs) n).map some

/-- The `_parseInstructions` loop: 1-based line counter, instructions
collected in order, the first error aborts. -/
def parseInstrAux : List Str → Nat → Except AsmError (List (List Str))
  | [], _ => .ok []
  | line :: rest, n =>
    match parseLine line n with
    | .error e => .error e
    | .ok none => parseInstrAux rest (n + 1)
    | .ok (some ins) =>
      match parseInstrAux rest (n + 1) with
      | .error e => .error e
      | .ok l => .ok (ins :: l)

/-- `Assembler._parseInstructions`: the loop from `current_line = 1`. -/
def parseInstructions (lines : List Str) : Except AsmError (List (List Str)) :=
  parseInstrAux lines 1

/-! ## Pass 2b: `Assembler._assemble` -/

def IN_OUT : List Str := ["IN".toList, "OUT".toList]

/-- The split of a parsed instruction's operand tail into
`(F_operand, D_operand)`: with one operand F is the literal `0` sentinel
(modelled `none`) and D is the operand; with two, F is the first and D the
second. -/
def fdOperands (o1 : Str) (rest : List Str) : Option Str × Str :=
  match rest with
  | [] => (none, o1)
  | o2 :: _ => (some o1, o2)

/-- The D-operand resolution of `_assemble`: a raw `int` for `IN`/`OUT`
(device/offset number), `_getIdLocation` otherwise.  `none` models the
`ValueError` from `int`. -/
def resolveD (mnemonic dOp : Str) (s : AsmState) : Option (Int × AsmState) :=
  if mnemonic ∈ IN_OUT then (pyInt dOp).map (fun v => (v, s))
  else getIdLocation dOp s

/-- The F-operand resolution of `_assemble`: the literal 0 when the
instruction has a single operand, a raw `int` for `IN`/`OUT`,
`_getIdLocation` otherwise. -/
def resolveF (mnemonic : Str) (fOp : Option Str) (s : AsmState) :
    Option (Int × AsmState) :=
  match fOp with
  | none => some (0, s)
  | some ft =>
      if mnemonic ∈ IN_OUT then (pyInt ft).map (fun v => (v, s))
      else getIdLocation ft s

/-- The body of the `_assemble` loop for one parsed instruction `o`
(machine-mode output): look up the opcode, resolve D then F (threading the
symbol state in that order), render both with `bin(...)[2:]`, pad D to 7 and
F to `(2 + 7) - len(opcode)`, and emit `opcode + F + D`.  `none` models the
Python exceptions (`KeyError` on the opcode table, `ValueError` from
`int`). -/
def encodeOne (o : List Str) (s : AsmState) : Option (Str × AsmState) :=
  match o with
  | op :: o1 :: rest =>
    let mnemonic := pyUpper op
    match alistLookup opcodes mnemonic with
    | none => none
    | some opcode =>
      let FD := fdOperands o1 rest
      match resolveD mnemonic FD.2 s with
      | none => none
      | some (dv, s1) =>
        match resolveF mnemonic FD.1 s1 with
        | none => none
        | some (fv, s2) =>
          some (opcode ++ zfill ((pyBin fv).drop 2) ((2 + 7) - opcode.length)
                       ++ zfill ((pyBin dv).drop 2) 7, s2)
  | _ => none

/-- The `_assemble` loop over the parsed instruction list, collecting the
emitted words in order. -/
def assemble : List (List Str) → AsmState → Option (List Str × AsmState)
  | [], s => some ([], s)
  | o :: rest, s =>
    match encodeOne o s with
    | none => none
    | some (w, s1) =>
      match assemble rest s1 with
      | none => none
      | some (ws, s2) => some (w :: ws, s2)

/-! ## The driver (`Assembler.__init__`) -/

/-- The whole run: label pass, instruction parse, assembly; returns the
emitted words and the final symbol state. -/
def runAssemblerFull (lines : List Str) :
    Except AsmError (List Str × AsmState) :=
  match parseLabels lines with
  | .error e => .error e
  | .ok labels =>
    match parseInstructions lines with
    | .error e => .error e
    | .ok instrs =>
      match assemble instrs (initState labels) with
      | none => .error .pyException
      | some r => .ok r

/-- The whole run, machine-mode output only. -/
def runAssembler (lines : List Str) : Except AsmError (List Str) :=
  (runAssemblerFull lines).map (fun r => r.1)

/-! ## Helper lemmas -/

theorem alistLookup_append_of_some {β : Type} {m : List (Str × β)} {k : Str}
    {v : β} (t : List (Str × β)) (h : alistLookup m k = some v) :
    alistLookup (m ++ t) k = some v := by
  induction m with
  | nil => simp [alistLookup] at h
  | cons p rest ih =>
    obtain ⟨k2, v2⟩ := p
    by_cases hk : k2 = k
    · simp [alistLookup, hk] at h ⊢; exact h
    · simp [alistLookup, hk] at h ⊢; exact ih h

theorem alistLookup_append_of_none {β : Type} {m : List (Str × β)} {k : Str}
    (t : List (Str × β)) (h : alistLookup m k = none) :
    alistLookup (m ++ t) k = alistLookup t k := by
  induction m with
  | nil => simp
  | cons p rest ih =>
    obtain ⟨k2, v2⟩ := p
    by_cases hk : k2 = k
    · simp [alistLookup, hk] at h
    · simp [alistLookup, hk] at h ⊢; exact ih h

theorem alistLookup_self_append {β : Type} {m : List (Str × β)} {k : Str}
    {v : β} (h : alistLookup m k = none) :
    alistLookup (m ++ [(k, v)]) k = some v := by
  rw [alistLookup_append_of_none _ h]; simp [alistLookup]

/-- A token containing `'@'` is never `isnumeric`. -/
theorem contains_at_not_numeric {id : Str} (h : id.contains '@' = true) :
    pyIsNumeric id = false := by
  have hm : '@' ∈ id := by simpa [List.contains] using h
  simp only [pyIsNumeric]
  cases hA : id.all Char.isDigit with
  | false => simp
  | true =>
    exfalso
    have := (List.all_eq_true.mp hA) '@' hm
    exact absurd this (by decide)

theorem binNatAux_congr :
    ∀ (f1 f2 n : Nat), n < f1 → n < f2 → binNatAux f1 n = binNatAux f2 n := by
  intro f1
  induction f1 with
  | zero => intro f2 n h1 _; omega
  | succ g ih =>
    intro f2 n h1 h2
    cases f2 with
    | zero => omega
    | succ h =>
      simp only [binNatAux]
      by_cases hn : n < 2
      · simp [hn]
      · simp only [hn, if_false]
        have hrec : binNatAux g (n / 2) = binNatAux h (n / 2) := by
          exact ih h (n / 2) (by omega) (by omega)
        rw [hrec]

theorem binNat_eq_rec (n : Nat) (h : 2 ≤ n) :
    binNat n = binNat (n / 2) ++ [if n % 2 = 1 then '1' else '0'] := by
  unfold binNat
  rw [show binNatAux (n + 1) n =
      (if n < 2 then (if n = 1 then ['1'] else ['0'])
       else binNatAux n (n / 2) ++ [if n % 2 = 1 then '1' else '0']) from rfl]
  simp only [show ¬n < 2 by omega, if_false]
  rw [binNatAux_congr n (n / 2 + 1) (n / 2) (by omega) (by omega)]

theorem binNat_length_le (k n : Nat) (h1 : 1 ≤ k) (h2 : n < 2 ^ k) :
    (binNat n).length ≤ k := by
  induction n using Nat.strong_induction_on generalizing k with
  | _ n ih =>
    by_cases hn : n < 2
    · interval_cases n <;> simpa [binNat, binNatAux] using h1
    · have hk2 : 2 ≤ k := by
        by_contra hk
        have : k = 1 := by omega
        subst this
        simp at h2
        omega
      rw [binNat_eq_rec n (by omega)]
      have hpow : 2 ^ k = 2 ^ (k - 1) * 2 := by
        rw [← pow_succ]
        congr 1
        omega
      have hdiv : n / 2 < 2 ^ (k - 1) := by omega
      have := ih (n / 2) (by omega) (k - 1) (by omega) hdiv
      simp only [List.length_append, List.length_cons, List.length_nil]
      omega

theorem zfill_length (s : Str) (w : Nat) : (zfill s w).length = max w s.length := by
  unfold zfill
  by_cases hw : w ≤ s.length
  · simp [hw, Nat.max_eq_right hw]
  · simp only [hw, if_false]
    cases s with
    | nil => simp
    | cons c rest =>
      by_cases hc : c = '+' || c = '-'
      · simp only [hc, if_true, List.length_cons, List.length_append,
          List.length_replicate]
        simp at hw ⊢
        omega
      · simp only [hc, if_false, List.length_append, List.length_replicate,
          List.length_cons]
        simp at hw ⊢
        omega

theorem pyBin_drop_two (n : Int) (h : 0 ≤ n) :
    (pyBin n).drop 2 = binNat n.toNat := by
  simp [pyBin, not_lt.mpr h]

/-- Every opcode-table entry pairs an `IN`/`OUT` mnemonic with a 4-bit
pattern, any other mnemonic with a 2-bit pattern. -/
theorem opcode_classes {m opc : Str} (h : alistLookup opcodes m = some opc) :
    (m ∈ IN_OUT ∧ opc.length = 4) ∨ (m ∉ IN_OUT ∧ opc.length = 2) := by
  simp only [opcodes, alistLookup] at h
  split_ifs at h with h1 h2 h3 h4 h5 h6 <;>
    (injection h with h; subst h; first
      | exact Or.inl ⟨by rw [← h5]; decide, rfl⟩
      | exact Or.inl ⟨by rw [← h6]; decide, rfl⟩
      | exact Or.inr ⟨by subst h1; decide, rfl⟩
      | exact Or.inr ⟨by subst h2; decide, rfl⟩
      | exact Or.inr ⟨by subst h3; decide, rfl⟩
      | exact Or.inr ⟨by subst h4; decide, rfl⟩)

/-! ## The claims -/

/-- C1: for the two-line source `loop: ADD @1 x` / `BEQ loop`, the assembler
binds label `loop` to address 0, allocates variable `x` at address 100, and
emits the two 16-bit words `00 ∥ 0000001 ∥ 1100100` (ADD: opcode `00`,
F = binary of 1 padded to 7 bits, D = binary of 100 padded to 7 bits) and
`11 ∥ 0000000 ∥ 0000000` (BEQ: opcode `11`, F = `0000000`, D = binary of 0
padded to 7 bits). -/
theorem claim_C1 :
    parseLabels [("loop: ADD @1 x\n").toList, ("BEQ loop\n").toList] =
      .ok [(("loop").toList, 0)] ∧
    runAssemblerFull [("loop: ADD @1 x\n").toList, ("BEQ loop\n").toList] =
      .ok ([("00").toList ++ ("0000001").toList ++ ("1100100").toList,
            ("11").toList ++ ("0000000").toList ++ ("0000000").toList],
           { labels := [(("loop").toList, 0)],
             vars := [(("x").toList, 100)],
             constants := [],
             dataPointer := 101 }) :=
  ⟨rfl, rfl⟩

/-- C2 counterexample: `OUT 1 200` is a valid one-line program, yet its
emitted word is 17 characters long — the D field is `bin(200)` which needs 8
bits and `zfill` never truncates — refuting the claim that every emitted word
of every valid program is exactly 16 bits whatever values the operands
resolve to. -/
theorem claim_C2_counterexample :
    runAssembler [("OUT 1 200\n").toList] =
      .ok [("11110000111001000").toList] ∧
    (("11110000111001000").toList).length = 17 :=
  ⟨rfl, rfl⟩

/-- C2 (amended): for every assembled instruction the emitted word is the
concatenation `opcode ∥ F ∥ D` with D rendered in 7 bits and F in
`9 − opcode-width` bits — 2+7+7 for `ADD`/`CMP`/`MOV`/`BEQ` and 4+5+7 for
`IN`/`OUT`, 16 bits in total — provided the resolved D value fits in 7 bits
and the resolved F value fits in its field (the zero-padding never truncates,
so oversized values would widen the word instead). -/
theorem claim_C2_amended (op o1 : Str) (rest : List Str) (s : AsmState)
    (opc : Str) (dv fv : Int) (s1 s2 : AsmState)
    (hopc : alistLookup opcodes (pyUpper op) = some opc)
    (hd : resolveD (pyUpper op) (fdOperands o1 rest).2 s = some (dv, s1))
    (hf : resolveF (pyUpper op) (fdOperands o1 rest).1 s1 = some (fv, s2))
    (hdlo : 0 ≤ dv) (hdhi : dv < 2 ^ 7)
    (hflo : 0 ≤ fv) (hfhi : fv < 2 ^ ((2 + 7) - opc.length)) :
    ∃ F D : Str,
      encodeOne (op :: o1 :: rest) s = some (opc ++ F ++ D, s2) ∧
      D.length = 7 ∧
      F.length = (2 + 7) - opc.length ∧
      (opc ++ F ++ D).length = 16 ∧
      (pyUpper op ∈ IN_OUT → opc.length = 4 ∧ F.length = 5) ∧
      (pyUpper op ∉ IN_OUT → opc.length = 2 ∧ F.length = 7) := by
  have hcls := opcode_classes hopc
  have hoplen : opc.length = 4 ∨ opc.length = 2 := by
    rcases hcls with ⟨_, h4⟩ | ⟨_, h2⟩
    · exact Or.inl h4
    · exact Or.inr h2
  have henc : encodeOne (op :: o1 :: rest) s =
      some (opc ++ zfill ((pyBin fv).drop 2) ((2 + 7) - opc.length)
                ++ zfill ((pyBin dv).drop 2) 7, s2) := by
    simp only [encodeOne, hopc, hd, hf]
  have hDlen : (zfill ((pyBin dv).drop 2) 7).length = 7 := by
    rw [zfill_length, pyBin_drop_two dv hdlo]
    have hdn : dv.toNat < 2 ^ 7 := by
      norm_num at hdhi ⊢
      omega
    have hle := binNat_length_le 7 dv.toNat (by omega) hdn
    omega
  have hFlen : (zfill ((pyBin fv).drop 2) ((2 + 7) - opc.length)).length =
      (2 + 7) - opc.length := by
    rw [zfill_length, pyBin_drop_two fv hflo]
    have hwpos : 1 ≤ (2 + 7) - opc.length := by omega
    have hfn : fv.toNat < 2 ^ ((2 + 7) - opc.length) := by
      rcases hoplen with h4 | h2
      · rw [h4] at hfhi ⊢
        norm_num at hfhi ⊢
        omega
      · rw [h2] at hfhi ⊢
        norm_num at hfhi ⊢
        omega
    have hle := binNat_length_le ((2 + 7) - opc.length) fv.toNat hwpos hfn
    omega
  refine ⟨zfill ((pyBin fv).drop 2) ((2 + 7) - opc.length),
          zfill ((pyBin dv).drop 2) 7, henc, hDlen, hFlen, ?_, ?_, ?_⟩
  · simp only [List.length_append, hDlen, hFlen]
    omega
  · intro hin
    rcases hcls with ⟨_, h4⟩ | ⟨hnin, _⟩
    · exact ⟨h4, by rw [hFlen, h4]⟩
    · exact absurd hin hnin
  · intro hnin
    rcases hcls with ⟨hin, _⟩ | ⟨_, h2⟩
    · exact absurd hin hnin
    · exact ⟨h2, by rw [hFlen, h2]⟩

/-- C2 witness: a concrete `ADD @1 @2` instruction assembles to a 16-bit
word `00 ∥ 0000001 ∥ 0000010`. -/
theorem claim_C2_witness :
    ∃ F D : Str,
      encodeOne [("ADD").toList, ("@1").toList, ("@2").toList]
        (initState []) =
        some (("00").toList ++ F ++ D, initState []) ∧
      D.length = 7 ∧
      F.length = (2 + 7) - (("00").toList).length ∧
      ((("00").toList) ++ F ++ D).length = 16 ∧
      (pyUpper (("ADD").toList) ∈ IN_OUT →
        (("00").toList).length = 4 ∧ F.length = 5) ∧
      (pyUpper (("ADD").toList) ∉ IN_OUT →
        (("00").toList).length = 2 ∧ F.length = 7) :=
  claim_C2_amended (("ADD").toList) (("@1").toList) [("@2").toList]
    (initState []) (("00").toList) 2 1 (initState []) (initState [])
    (by rfl) (by rfl) (by rfl)
    (by norm_num) (by norm_num) (by norm_num) (by norm_num)

/-- C3: operand resolution tries, in this fixed order: known label → its
recorded address (no allocation, state unchanged); all-digit token →
allocate/reuse a constant slot keyed by the literal text; token containing
`'@'` → strip the marker and parse the rest as an integer; otherwise →
allocate/reuse a variable slot.  In particular a token equal to a known label
name resolves to the label's address and never allocates a variable. -/
theorem claim_C3 (id : Str) (s : AsmState) :
    (∀ a, alistLookup s.labels id = some a →
      getIdLocation id s = some ((a : Int), s)) ∧
    (alistLookup s.labels id = none → pyIsNumeric id = true →
      ∀ a, alistLookup s.constants id = some a →
        getIdLocation id s = some ((a : Int), s)) ∧
    (alistLookup s.labels id = none → pyIsNumeric id = true →
      alistLookup s.constants id = none →
        getIdLocation id s = some ((s.dataPointer : Int),
          { s with constants := s.constants ++ [(id, s.dataPointer)],
                   dataPointer := s.dataPointer + 1 })) ∧
    (alistLookup s.labels id = none → pyIsNumeric id = false →
      id.contains '@' = true →
        getIdLocation id s =
          (pyInt (id.filter (fun c => !(c = '@')))).map
            (fun n => (min ((2 ^ 7 : Nat) - 1 : Int) n, s))) ∧
    (alistLookup s.labels id = none → pyIsNumeric id = false →
      id.contains '@' = false →
      ∀ a, alistLookup s.vars id = some a →
        getIdLocation id s = some ((a : Int), s)) ∧
    (alistLookup s.labels id = none → pyIsNumeric id = false →
      id.contains '@' = false →
      alistLookup s.vars id = none →
        getIdLocation id s = some ((s.dataPointer : Int),
          { s with vars := s.vars ++ [(id, s.dataPointer)],
                   dataPointer := s.dataPointer + 1 })) := by
  refine ⟨?_, ?_, ?_, ?_, ?_, ?_⟩
  · intro a hl; simp [getIdLocation, hl]
  · intro hl hnum a hc; simp [getIdLocation, hl, hnum, hc]
  · intro hl hnum hc; simp [getIdLocation, hl, hnum, hc]
  · intro hl hnum hat
    have hat2 : '@' ∈ id := by simpa [List.contains] using hat
    cases hi : pyInt (id.filter (fun c => !(c = '@'))) with
    | none => simp [getIdLocation, hl, hnum, hat2, hi]
    | some n => simp [getIdLocation, hl, hnum, hat2, hi]
  · intro hl hnum hat a hv
    have hat2 : '@' ∉ id := by simpa [List.contains] using hat
    simp [getIdLocation, hl, hnum, hat2, hv]
  · intro hl hnum hat hv
    have hat2 : '@' ∉ id := by simpa [List.contains] using hat
    simp [getIdLocation, hl, hnum, hat2, hv]

/-- C3 witness: a token equal to a known label resolves to the label's
address with the state unchanged. -/
theorem claim_C3_witness :
    getIdLocation (("loop").toList)
      (initState [(("loop").toList, 0)]) =
      some ((0 : Int), initState [(("loop").toList, 0)]) :=
  (claim_C3 (("loop").toList) (initState [(("loop").toList, 0)])).1 0 (by rfl)

/-- C4: an explicit-address operand (a non-label token containing `'@'`)
resolves to `min 127 n` where `n` is the integer value of the token with the
`'@'` markers removed: values `0..127` map to themselves, larger values are
clamped to 127 and never rejected. -/
theorem claim_C4 (t : Str) (s : AsmState) (n : Int)
    (hlab : alistLookup s.labels t = none)
    (hat : t.contains '@' = true)
    (hint : pyInt (t.filter (fun c => !(c = '@'))) = some n) :
    getIdLocation t s = some (min 127 n, s) ∧
    (n ≤ 127 → getIdLocation t s = some (n, s)) ∧
    (127 < n → getIdLocation t s = some ((127 : Int), s)) := by
  have hnum : pyIsNumeric t = false := contains_at_not_numeric hat
  have hat2 : '@' ∈ t := by simpa [List.contains] using hat
  have hbase : getIdLocation t s = some (min 127 n, s) := by
    simp [getIdLocation, hlab, hnum, hat2, hint]
  refine ⟨hbase, ?_, ?_⟩
  · intro hle
    rw [hbase, min_eq_right hle]
  · intro hgt
    rw [hbase, min_eq_left (le_of_lt hgt)]

/-- C4 witness: `@200` resolves to 127 (clamped, not rejected). -/
theorem claim_C4_witness :
    getIdLocation (("@200").toList) (initState []) =
      some ((127 : Int), initState []) :=
  (claim_C4 (("@200").toList) (initState []) 200 (by rfl) (by rfl)
    (by rfl)).2.2 (by norm_num)

/-- C5: every resolution either leaves the symbol maps and the data pointer
unchanged, or allocates exactly one new slot (variable or constant) at the
current shared data pointer and advances it by 1; the label table is never
touched; and resolving the same token again immediately afterwards returns
the same address with the state unchanged (idempotence, so addresses are
never reused or reassigned and are handed out in first-resolution order). -/
theorem claim_C5 (id : Str) (s : AsmState) (a : Int) (s1 : AsmState)
    (h : getIdLocation id s = some (a, s1)) :
    s1.labels = s.labels ∧
    ((s1.vars = s.vars ∧ s1.constants = s.constants ∧
        s1.dataPointer = s.dataPointer) ∨
      (a = (s.dataPointer : Int) ∧ s1.dataPointer = s.dataPointer + 1 ∧
        ((s1.vars = s.vars ++ [(id, s.dataPointer)] ∧
            s1.constants = s.constants) ∨
         (s1.constants = s.constants ++ [(id, s.dataPointer)] ∧
            s1.vars = s.vars)))) ∧
    getIdLocation id s1 = some (a, s1) := by
  cases hl : alistLookup s.labels id with
  | some a0 =>
    simp [getIdLocation, hl] at h
    obtain ⟨rfl, rfl⟩ := h
    exact ⟨rfl, Or.inl ⟨rfl, rfl, rfl⟩, by simp [getIdLocation, hl]⟩
  | none =>
    cases hnum : pyIsNumeric id with
    | true =>
      cases hc : alistLookup s.constants id with
      | some a0 =>
        simp [getIdLocation, hl, hnum, hc] at h
        obtain ⟨rfl, rfl⟩ := h
        exact ⟨rfl, Or.inl ⟨rfl, rfl, rfl⟩, by simp [getIdLocation, hl, hnum, hc]⟩
      | none =>
        simp [getIdLocation, hl, hnum, hc] at h
        obtain ⟨rfl, rfl⟩ := h
        refine ⟨rfl, Or.inr ⟨rfl, rfl, Or.inr ⟨rfl, rfl⟩⟩, ?_⟩
        simp [getIdLocation, hl, hnum, alistLookup_self_append hc]
    | false =>
      cases hat : id.contains '@' with
      | true =>
        have hat2 : '@' ∈ id := by simpa [List.contains] using hat
        cases hi : pyInt (id.filter (fun c => !(c = '@'))) with
        | none => simp [getIdLocation, hl, hnum, hat2, hi] at h
        | some n =>
          simp [getIdLocation, hl, hnum, hat2, hi] at h
          obtain ⟨rfl, rfl⟩ := h
          exact ⟨rfl, Or.inl ⟨rfl, rfl, rfl⟩,
            by simp [getIdLocation, hl, hnum, hat2, hi]⟩
      | false =>
        have hat2 : '@' ∉ id := by simpa [List.contains] using hat
        cases hv : alistLookup s.vars id with
        | some a0 =>
          simp [getIdLocation, hl, hnum, hat2, hv] at h
          obtain ⟨rfl, rfl⟩ := h
          exact ⟨rfl, Or.inl ⟨rfl, rfl, rfl⟩,
            by simp [getIdLocation, hl, hnum, hat2, hv]⟩
        | none =>
          simp [getIdLocation, hl, hnum, hat2, hv] at h
          obtain ⟨rfl, rfl⟩ := h
          refine ⟨rfl, Or.inr ⟨rfl, rfl, Or.inl ⟨rfl, rfl⟩⟩, ?_⟩
          simp [getIdLocation, hl, hnum, hat2, alistLookup_self_append hv]

/-- C5 witness: the first resolution of variable `x` allocates address 100,
and resolving it again returns 100 with the state unchanged. -/
theorem claim_C5_witness :
    getIdLocation (("x").toList)
      { labels := [], vars := [(("x").toList, 100)], constants := [],
        dataPointer := 101 } =
      some ((100 : Int),
        { labels := [], vars := [(("x").toList, 100)], constants := [],
          dataPointer := 101 }) :=
  (claim_C5 (("x").toList) (initState []) 100
    { labels := [], vars := [(("x").toList, 100)], constants := [],
      dataPointer := 101 } (by rfl)).2.2

/-- Spec-side description of the scan pass's address counter: the address of
line `i` is the number of earlier lines whose first character is not a
comment marker (to be compared with what `parseLabels` records). -/
def countedAddress (lines : List Str) (i : Nat) : Nat :=
  ((lines.take i).filter notCommentStart).length

theorem countedAddress_zero (lines : List Str) : countedAddress lines 0 = 0 := by
  simp [countedAddress]

theorem countedAddress_cons (line : Str) (rest : List Str) (i : Nat) :
    countedAddress (line :: rest) (i + 1) =
      (if notCommentStart line = true then 1 else 0) + countedAddress rest i := by
  simp only [countedAddress, List.take_succ_cons, List.filter_cons]
  cases h : notCommentStart line <;> simp [h, Nat.add_comm]

theorem parseLabelsAux_append :
    ∀ (lines : List Str) (addr : Nat) (m0 m : List (Str × Nat)),
      parseLabelsAux lines addr m0 = .ok m → ∃ t, m = m0 ++ t := by
  intro lines
  induction lines with
  | nil =>
    intro addr m0 m h
    simp only [parseLabelsAux] at h
    injection h with h
    exact ⟨[], by simp [h]⟩
  | cons line rest ih =>
    intro addr m0 m h
    simp only [parseLabelsAux] at h
    by_cases hL : hasLabel line
    · simp only [hL, if_true] at h
      cases hdef : alistLookup m0 (getLabel line) with
      | some a => simp [defineLabel, hdef] at h
      | none =>
        simp only [defineLabel, hdef] at h
        obtain ⟨t, ht⟩ := ih _ _ _ h
        exact ⟨(getLabel line, addr) :: t, by simp [ht]⟩
    · simp only [hL, if_false] at h
      exact ih _ _ _ h

theorem parseLabelsAux_lookup :
    ∀ (lines : List Str) (addr : Nat) (m0 m : List (Str × Nat)),
      parseLabelsAux lines addr m0 = .ok m →
      ∀ (i : Nat) (hi : i < lines.length),
        hasLabel (lines.get ⟨i, hi⟩) = true →
        alistLookup m (getLabel (lines.get ⟨i, hi⟩)) =
          some (addr + countedAddress lines i) := by
  intro lines
  induction lines with
  | nil => intro addr m0 m _ i hi; exact absurd hi (by simp)
  | cons line rest ih =>
    intro addr m0 m h i hi hlab
    simp only [parseLabelsAux] at h
    by_cases hL : hasLabel line
    · simp only [hL, if_true] at h
      cases hdef : alistLookup m0 (getLabel line) with
      | some a => simp [defineLabel, hdef] at h
      | none =>
        simp only [defineLabel, hdef] at h
        cases i with
        | zero =>
          obtain ⟨t, rfl⟩ := parseLabelsAux_append _ _ _ _ h
          simp only [List.get, countedAddress_zero, Nat.add_zero]
          exact alistLookup_append_of_some _ (alistLookup_self_append hdef)
        | succ j =>
          have := ih _ _ _ h j (by simpa using hi) (by simpa using hlab)
          simp only [List.get] at this ⊢
          rw [countedAddress_cons]
          cases hnc : notCommentStart line <;> simp only [hnc, if_true, if_false] at this ⊢
          · simpa using this
          · rw [show addr + (1 + countedAddress rest j) =
                addr + 1 + countedAddress rest j by omega]
            exact this
    · simp only [hL, if_false] at h
      cases i with
      | zero => simp only [List.get] at hlab; exact absurd hlab (by simp [hL])
      | succ j =>
        have := ih _ _ _ h j (by simpa using hi) (by simpa using hlab)
        simp only [List.get] at this ⊢
        rw [countedAddress_cons]
        cases hnc : notCommentStart line <;> simp only [hnc, if_true, if_false] at this ⊢
        · simpa using this
        · rw [show addr + (1 + countedAddress rest j) =
              addr + 1 + countedAddress rest j by omega]
          exact this

/-- C6: the scan pass starts its counter at 0 and advances it by 1 exactly for
the lines whose first character is not `'#'` or `'/'` (blank and label-only
lines included), and binds the label of every line containing `':'` — the
text before the first `':'`, left-trimmed and lower-cased — to the counter's
value at that line, i.e. the number of counted lines before it (so a label on
a comment-marked line binds to the next counted line's address). -/
theorem claim_C6 (lines : List Str) (m : List (Str × Nat))
    (hok : parseLabels lines = .ok m)
    (i : Nat) (hi : i < lines.length)
    (hlab : hasLabel (lines.get ⟨i, hi⟩) = true) :
    alistLookup m (getLabel (lines.get ⟨i, hi⟩)) =
      some (countedAddress lines i) := by
  have := parseLabelsAux_lookup lines 0 [] m hok i hi hlab
  simpa using this

/-- C6 witness: in a two-line source whose first line is blank, the label on
the second line is bound to address 1 — the blank line consumed a slot. -/
theorem claim_C6_witness :
    alistLookup [(("foo").toList, 1)]
      (getLabel (([("\n").toList, ("foo: ADD a b\n").toList]).get
        ⟨1, by decide⟩)) =
      some (countedAddress [("\n").toList, ("foo: ADD a b\n").toList] 1) :=
  claim_C6 [("\n").toList, ("foo: ADD a b\n").toList]
    [(("foo").toList, 1)] (by rfl) 1 (by decide) (by rfl)

/-- The encode pass's skip condition for a source line: the text before the
first `'#'` is empty, or the line has a label prefix and nothing follows the
`':'` (note the trailing newline counts as content, so a blank line is NOT
skipped). -/
def lineSkipped (line : Str) : Bool :=
  (stripComment line).length == 0 ||
    (hasLabel (stripComment line) &&
      (afterLabel (stripComment line)).length == 0)

theorem map_some_ne_ok_none {α ε : Type} (r : Except ε α) :
    r.map some ≠ .ok (none : Option α) := by
  cases r <;> simp [Except.map]

theorem parseLine_none {line : Str} {n : Nat}
    (h : parseLine line n = .ok none) : lineSkipped line = true := by
  simp only [parseLine] at h
  split at h
  · rename_i h1
    simp [lineSkipped, h1]
  · split at h
    · rename_i h1 hL
      split at h
      · rename_i h2
        simp [lineSkipped, hL, h2]
      · exact absurd h (map_some_ne_ok_none _)
    · exact absurd h (map_some_ne_ok_none _)

theorem parseLine_some {line : Str} {n : Nat} {ins : List Str}
    (h : parseLine line n = .ok (some ins)) : lineSkipped line = false := by
  simp only [parseLine] at h
  split at h
  · simp at h
  · split at h
    · rename_i h1 hL
      split at h
      · simp at h
      · rename_i h2
        simp [lineSkipped, h1, hL, h2]
    · rename_i h1 hL
      simp [lineSkipped, h1, hL]

theorem parseInstrAux_length :
    ∀ (lines : List Str) (n : Nat) (instrs : List (List Str)),
      parseInstrAux lines n = .ok instrs →
      instrs.length = (lines.filter (fun l => !(lineSkipped l))).length := by
  intro lines
  induction lines with
  | nil =>
    intro n instrs h
    simp only [parseInstrAux] at h
    injection h with h
    simp [← h]
  | cons line rest ih =>
    intro n instrs h
    simp only [parseInstrAux] at h
    cases hpl : parseLine line n with
    | error e => simp [hpl] at h
    | ok r =>
      cases r with
      | none =>
        simp only [hpl] at h
        rw [List.filter_cons_of_neg (by simp [parseLine_none hpl])]
        exact ih _ _ h
      | some ins =>
        simp only [hpl] at h
        cases hrec : parseInstrAux rest (n + 1) with
        | error e => simp [hrec] at h
        | ok l =>
          simp only [hrec] at h
          injection h with h
          rw [List.filter_cons_of_pos (by simp [parseLine_some hpl])]
          simp [← h, ih _ _ hrec]

theorem assemble_length :
    ∀ (instrs : List (List Str)) (s : AsmState) (ws : List Str)
      (s2 : AsmState), assemble instrs s = some (ws, s2) →
      ws.length = instrs.length := by
  intro instrs
  induction instrs with
  | nil =>
    intro s ws s2 h
    simp only [assemble] at h
    injection h with h
    have hw : ws = [] := by simpa using (congrArg Prod.fst h).symm
    simp [hw]
  | cons o rest ih =>
    intro s ws s2 h
    simp only [assemble] at h
    cases he : encodeOne o s with
    | none => simp [he] at h
    | some r =>
      obtain ⟨w, s1⟩ := r
      simp only [he] at h
      cases hrec : assemble rest s1 with
      | none => simp [hrec] at h
      | some r2 =>
        obtain ⟨ws2, s3⟩ := r2
        simp only [hrec] at h
        injection h with h
        have hfst := congrArg Prod.fst h
        simp at hfst
        simp [← hfst, ih _ _ _ hrec]

/-- C7: when a run succeeds, the number of emitted instruction words equals
the number of source lines that are not skipped by the encode pass — i.e.
lines whose text before the first `'#'` is nonempty and which do not consist
of a label prefix with nothing after the `':'`; every other line yields
exactly one word. -/
theorem claim_C7 (lines : List Str) (out : List Str)
    (h : runAssembler lines = .ok out) :
    out.length = (lines.filter (fun l => !(lineSkipped l))).length := by
  unfold runAssembler at h
  cases hfull : runAssemblerFull lines with
  | error e => rw [hfull] at h; simp [Except.map] at h
  | ok r =>
    obtain ⟨ws, st⟩ := r
    rw [hfull] at h
    simp only [Except.map] at h
    injection h with h
    unfold runAssemblerFull at hfull
    cases hlab : parseLabels lines with
    | error e => simp [hlab] at hfull
    | ok lm =>
      simp only [hlab] at hfull
      cases hins : parseInstructions lines with
      | error e => simp [hins] at hfull
      | ok instrs =>
        simp only [hins] at hfull
        cases hasm : assemble instrs (initState lm) with
        | none => simp [hasm] at hfull
        | some r2 =>
          obtain ⟨ws2, s2⟩ := r2
          simp only [hasm] at hfull
          injection hfull with hfull
          have hws : ws2 = ws := by
            have := congrArg Prod.fst hfull
            simpa using this
          have hlen := assemble_length instrs (initState lm) ws2 s2 hasm
          rw [hws] at hlen
          rw [← h, hlen]
          exact parseInstrAux_length lines 1 instrs hins

/-- C7 witness: the two-line `loop`/`BEQ` program emits 2 words, and exactly
2 of its lines survive comment/label stripping. -/
theorem claim_C7_witness :
    ([("00").toList ++ ("0000001").toList ++ ("1100100").toList,
      ("11").toList ++ ("0000000").toList ++ ("0000000").toList] :
        List Str).length =
      (([("loop: ADD @1 x\n").toList, ("BEQ loop\n").toList]).filter
        (fun l => !(lineSkipped l))).length :=
  claim_C7 [("loop: ADD @1 x\n").toList, ("BEQ loop\n").toList]
    [("00").toList ++ ("0000001").toList ++ ("1100100").toList,
     ("11").toList ++ ("0000000").toList ++ ("0000000").toList] (by rfl)

theorem replaceDoubleSpace_space :
    ∀ (l : Str), (∀ c ∈ l, isPySpace c = true) →
      ∀ c ∈ replaceDoubleSpace l, isPySpace c = true
  | [], _, c, hc => by simp [replaceDoubleSpace] at hc
  | [c0], h, c, hc => by
      simp [replaceDoubleSpace] at hc
      subst hc
      exact h _ (by simp)
  | c0 :: c1 :: rest, h, c, hc => by
      simp only [replaceDoubleSpace] at hc
      split at hc
      · rcases List.mem_cons.mp hc with rfl | hc2
        · decide
        · exact replaceDoubleSpace_space rest
            (fun d hd => h d (by simp [hd])) c hc2
      · rcases List.mem_cons.mp hc with rfl | hc2
        · exact h c (by simp)
        · exact replaceDoubleSpace_space (c1 :: rest)
            (fun d hd => h d (by simp only [List.mem_cons] at hd ⊢; tauto)) c hc2

theorem pyStrip_eq_nil {l : Str} (h : ∀ c ∈ l, isPySpace c = true) :
    pyStrip l = [] := by
  unfold pyStrip
  have h1 : l.dropWhile isPySpace = [] := by
    rw [List.dropWhile_eq_nil_iff]
    exact h
  simp [h1]

/-- An all-whitespace line tokenizes to the empty token list: whitespace
clean-up strips everything, the comma split of the empty string yields one
empty token, and the empty token passes neither the `isalnum` filter nor the
`'@'` filter. -/
theorem tokenize_space {l : Str} (h : ∀ c ∈ l, isPySpace c = true) :
    tokenize l = [] := by
  have h1 := replaceDoubleSpace_space l h
  have h2 : ∀ c ∈ (replaceDoubleSpace l).filter (fun c => !(c = '\t')),
      isPySpace c = true := fun c hc => h1 c (List.mem_of_mem_filter hc)
  simp only [tokenize]
  rw [pyStrip_eq_nil h2]
  rfl

/-- C9: a line whose text before the first `'#'` is whitespace-only but
nonempty (a blank line — a lone newline — or an indented comment line) is not
skipped by the encode pass: the empty-remainder skip fires only when the text
before `'#'` has length exactly 0, so such a line reaches tokenization, its
token list is empty, and the access to the mnemonic position dies with an
`IndexError` — neither an emitted word, nor a skip, nor a reported abort. -/
theorem claim_C9 (line : Str) (n : Nat)
    (hne : stripComment line ≠ [])
    (hsp : ∀ c ∈ stripComment line, isPySpace c = true) :
    parseLine line n = .error .pyIndexError := by
  have hlen : ¬(stripComment line).length = 0 := by
    simpa [List.length_eq_zero] using hne
  have hnl : hasLabel (stripComment line) = false := by
    cases hL : hasLabel (stripComment line) with
    | false => rfl
    | true =>
      exfalso
      have hm : ':' ∈ stripComment line := by
        simpa [hasLabel, List.contains] using hL
      exact absurd (hsp ':' hm) (by decide)
  have htok : tokenize (stripComment line) = [] := tokenize_space hsp
  simp only [parseLine, hlen, if_false, hnl, Bool.false_eq_true, htok,
    parseTokens]
  rfl

/-- C9 witness: a blank source line (a lone newline) makes the encode pass
die with an `IndexError`. -/
theorem claim_C9_witness :
    parseLine (("\n").toList) 1 = .error .pyIndexError :=
  claim_C9 (("\n").toList) 1 (by decide) (by decide)

theorem parseInstrAux_error_split :
    ∀ (pre : List Str) (line : Str) (post : List Str) (n : Nat)
      (e : AsmError),
      (∀ (i : Nat) (hi : i < pre.length),
        ∃ r, parseLine (pre.get ⟨i, hi⟩) (n + i) = .ok r) →
      parseLine line (n + pre.length) = .error e →
      parseInstrAux (pre ++ line :: post) n = .error e := by
  intro pre
  induction pre with
  | nil =>
    intro line post n e _ herr
    simp only [List.length_nil, Nat.add_zero] at herr
    simp [parseInstrAux, herr]
  | cons p pre2 ih =>
    intro line post n e hpre herr
    obtain ⟨r, hr⟩ := hpre 0 (by simp)
    simp only [List.get, Nat.add_zero] at hr
    have hpre2 : ∀ (i : Nat) (hi : i < pre2.length),
        ∃ r2, parseLine (pre2.get ⟨i, hi⟩) (n + 1 + i) = .ok r2 := by
      intro i hi
      obtain ⟨r2, hr2⟩ := hpre (i + 1) (by simpa using hi)
      refine ⟨r2, ?_⟩
      rw [show n + 1 + i = n + (i + 1) by omega]
      simpa [List.get] using hr2
    have herr2 : parseLine line (n + 1 + pre2.length) = .error e := by
      rw [show n + 1 + pre2.length = n + (p :: pre2).length by simp; omega]
      exact herr
    have hrec := ih line post (n + 1) e hpre2 herr2
    cases r with
    | none => simp [parseInstrAux, hr, hrec]
    | some ins => simp [parseInstrAux, hr, hrec]

/-- C8: the three fatal conditions abort the run with no recovery:
redefining a label makes `defineLabel` fail and a label-pass failure is the
whole run's result (no word is emitted); an upper-cased mnemonic outside the
six operations makes the line parser fail with an unknown-operation report
carrying the 1-based line number; too few tokens for the mnemonic's operand
count (2 for ADD/MOV/CMP/IN/OUT, 1 for BEQ) fail with a missing-operand
report carrying the mnemonic and the 1-based line number; and a parse-pass
failure on the line at 0-based index `pre.length` (reported as line
`1 + pre.length`) is the result of the whole instruction parse. -/
theorem claim_C8 :
    (∀ (l : Str) (a : Nat) (m : List (Str × Nat)) (x : Nat),
        alistLookup m l = some x →
        defineLabel l a m = .error (.duplicateLabel l)) ∧
    (∀ (lines : List Str) (e : AsmError),
        parseLabels lines = .error e → runAssembler lines = .error e) ∧
    (∀ (t0 : Str) (ts : List Str) (n : Nat),
        pyUpper t0 ∉ OPERATIONS →
        parseTokens (t0 :: ts) n = .error (.unknownOperation n)) ∧
    (∀ (t0 : Str) (ts : List Str) (n k : Nat),
        pyUpper t0 ∈ OPERATIONS →
        alistLookup OPERAND_NUMBER (pyUpper t0) = some k →
        (t0 :: ts).length < k + 1 →
        parseTokens (t0 :: ts) n = .error (.missingOperand (pyUpper t0) n)) ∧
    (∀ (lines : List Str) (lm : List (Str × Nat)) (e : AsmError),
        parseLabels lines = .ok lm → parseInstructions lines = .error e →
        runAssembler lines = .error e) ∧
    (∀ (pre : List Str) (line : Str) (post : List Str) (e : AsmError),
        (∀ (i : Nat) (hi : i < pre.length),
          ∃ r, parseLine (pre.get ⟨i, hi⟩) (1 + i) = .ok r) →
        parseLine line (1 + pre.length) = .error e →
        parseInstructions (pre ++ line :: post) = .error e) := by
  refine ⟨?_, ?_, ?_, ?_, ?_, ?_⟩
  · intro l a m x hx
    simp [defineLabel, hx]
  · intro lines e he
    simp [runAssembler, runAssemblerFull, he, Except.map]
  · intro t0 ts n hop
    simp [parseTokens, hop]
  · intro t0 ts n k hop hk hlt
    simp only [parseTokens, hk, hop, if_true]
    rw [if_pos hlt]
  · intro lines lm e hl he
    simp [runAssembler, runAssemblerFull, hl, he, Except.map]
  · intro pre line post e hpre herr
    exact parseInstrAux_error_split pre line post 1 e hpre herr

/-- C8 witness: concrete aborts — a twice-defined `foo` kills the whole run
with a duplicate-label report; `XYZ 1 2` on source line 2 reports an unknown
operation at line 2; `ADD a` reports a missing operand for `ADD`. -/
theorem claim_C8_witness :
    defineLabel (("foo").toList) 1 [(("foo").toList, 0)] =
      .error (.duplicateLabel (("foo").toList)) ∧
    runAssembler [("foo: ADD a b\n").toList, ("foo: ADD a b\n").toList] =
      .error (.duplicateLabel (("foo").toList)) ∧
    parseTokens [("XYZ").toList, ("1").toList, ("2").toList] 1 =
      .error (.unknownOperation 1) ∧
    parseTokens [("ADD").toList, ("a").toList] 3 =
      .error (.missingOperand (("ADD").toList) 3) ∧
    parseInstructions [("ADD a b\n").toList, ("XYZ 1 2\n").toList] =
      .error (.unknownOperation 2) :=
  ⟨claim_C8.1 (("foo").toList) 1 [(("foo").toList, 0)] 0 (by rfl),
   claim_C8.2.1 [("foo: ADD a b\n").toList, ("foo: ADD a b\n").toList]
     (.duplicateLabel (("foo").toList)) (by rfl),
   claim_C8.2.2.1 (("XYZ").toList) [("1").toList, ("2").toList] 1 (by decide),
   claim_C8.2.2.2.1 (("ADD").toList) [("a").toList] 3 2 (by decide) (by rfl)
     (by decide),
   claim_C8.2.2.2.2.2 [("ADD a b\n").toList] (("XYZ 1 2\n").toList) [] _
     (fun i hi => by
       have hi0 : i = 0 := by simpa [Nat.lt_one_iff] using hi
       subst hi0
       exact ⟨some [("ADD").toList, ("a").toList, ("b").toList], by rfl⟩)
     (by rfl)⟩

/-- C10: label names are lower-cased when defined by the scan pass, but
operand lookup is case-sensitive: a reference that does not match any stored
(lower-case) label name falls through and allocates a fresh data-region
variable.  Concretely, assembling `Start: ADD Start y` stores the label as
`start` at address 0 while the operand `Start` is allocated as a variable at
address 101 (after `y` at 100) instead of resolving to the label. -/
theorem claim_C10 :
    (∀ (id : Str) (s : AsmState),
      alistLookup s.labels id = none → pyIsNumeric id = false →
      id.contains '@' = false → alistLookup s.vars id = none →
      getIdLocation id s = some ((s.dataPointer : Int),
        { s with vars := s.vars ++ [(id, s.dataPointer)],
                 dataPointer := s.dataPointer + 1 })) ∧
    runAssemblerFull [("Start: ADD Start y\n").toList] =
      .ok ([("00").toList ++ ("1100101").toList ++ ("1100100").toList],
           { labels := [(("start").toList, 0)],
             vars := [(("y").toList, 100), (("Start").toList, 101)],
             constants := [],
             dataPointer := 102 }) := by
  constructor
  · intro id s hl hnum hat hv
    have hat2 : '@' ∉ id := by simpa [List.contains] using hat
    simp [getIdLocation, hl, hnum, hat2, hv]
  · rfl

/-- C10 witness: the operand `Start` does not resolve to the stored label
`start` and is allocated as a fresh variable at the data pointer. -/
theorem claim_C10_witness :
    getIdLocation (("Start").toList)
      { labels := [(("start").toList, 0)], vars := [(("y").toList, 100)],
        constants := [], dataPointer := 101 } =
      some ((101 : Int),
        { labels := [(("start").toList, 0)],
          vars := [(("y").toList, 100), (("Start").toList, 101)],
          constants := [], dataPointer := 102 }) :=
  claim_C10.1 (("Start").toList)
    { labels := [(("start").toList, 0)], vars := [(("y").toList, 100)],
      constants := [], dataPointer := 101 }
    (by rfl) (by rfl) (by rfl) (by rfl)

end MSAssembler
